import Mathlib

/-!
Verification of the `pdf2md_ollama` repository against its natural-language
specification.

The development shallowly embeds the two core source files:

* `src/src/pdf2md.py` — resume parsing (`get_completed_pages`) and the
  progressive page-by-page job runner
  (`query_gemma3_with_images_progressive`);
* `src/src/openrouter_client.py` — the OpenRouter client: base64 encoding of
  page images (`encode_images_to_base64`), the rate limiter
  (`_wait_for_rate_limit`), and the retry loop of `chat_with_images`.

File contents are embedded as `List Char` (the text of the output file), the
file system state for one output path as an `Option (List Char)` or, where
read failures matter, a three-state `FileState`.  Backend responses are an
arbitrary function from page number to response text (a deterministic
backend).  The HTTP transport is an arbitrary function from attempt index to
an outcome (status code, whether the body parses as a JSON object, the
extracted message content if any, and the error strings Python would attach
to the raised exceptions).  Wall-clock time is embedded as `ℚ` with an
idealised `time.sleep` (sleeping `d` seconds advances the clock by exactly
`d`, and reading the clock immediately after costs no time).
-/

namespace Pdf2MdProof

/-! ### Text utilities: lines, digits, page headers -/

/-- Split a character list at every newline, exactly as Python's `^...$`
anchors with `re.MULTILINE` partition a string into lines: `splitLines s`
always returns one (possibly empty) segment more than the number of `'\n'`
characters in `s`. -/
def splitLines : List Char → List (List Char)
  | [] => [[]]
  | c :: cs =>
    if c = '\n' then [] :: splitLines cs
    else
      match splitLines cs with
      | [] => [[c]]
      | l :: ls => (c :: l) :: ls

/-- Numeric value of a big-endian ASCII digit string, as `int(...)` computes
it in `get_completed_pages` (src/src/pdf2md.py line 35). -/
def digitsVal (ds : List Char) : Nat :=
  ds.foldl (fun a c => 10 * a + (c.toNat - 48)) 0

/-- The eight characters `"## Page "` opening every page header
(src/src/pdf2md.py lines 33 and 96). -/
def headerMark : List Char := "## Page ".data

/-- Match one line against the pattern `r'^## Page (\d+)$'` of
src/src/pdf2md.py line 33: the whole line must be `"## Page "` followed by
one or more digits; on a match return the numeric value of the digits. -/
def parseHeader (l : List Char) : Option Nat :=
  if l.take 8 = headerMark ∧ l.drop 8 ≠ [] ∧ (l.drop 8).all (fun c => c.isDigit) then
    some (digitsVal (l.drop 8))
  else none

/-- All page numbers claimed by full-line `## Page N` headers, in file
order, duplicates kept (the raw `re.findall` result of
src/src/pdf2md.py line 34, mapped through `int`). -/
def headerNums (content : List Char) : List Nat :=
  (splitLines content).filterMap parseHeader

/-- State of the output path: no file, a readable file with the given text,
or a file whose open/read/parse raises (the `except Exception` arm of
`get_completed_pages`, src/src/pdf2md.py lines 37-39). -/
inductive FileState where
  | absent
  | present (content : List Char)
  | unreadable

/-- Embedding of `get_completed_pages` (src/src/pdf2md.py lines 22-39):
empty set when the file does not exist, the set of header numbers
(duplicates collapsed by `set(...)`) when it reads, and — after a printed
warning — the empty set when reading or parsing fails. -/
def get_completed_pages : FileState → Finset Nat
  | .absent => ∅
  | .present content => (headerNums content).toFinset
  | .unreadable => ∅

/-- View an absent-or-readable file as a `FileState`. -/
def fsOfOption : Option (List Char) → FileState
  | none => .absent
  | some c => .present c

/-- The ASCII digit characters, as Python's `str` renders one decimal
digit. -/
def digitChar : Nat → Char
  | 0 => '0'
  | 1 => '1'
  | 2 => '2'
  | 3 => '3'
  | 4 => '4'
  | 5 => '5'
  | 6 => '6'
  | 7 => '7'
  | 8 => '8'
  | 9 => '9'
  | _ => '*'

/-- Fuel-driven worker for `natChars` (the fuel keeps the recursion
structural, so that concrete runs evaluate inside the kernel). -/
def natCharsAux : Nat → Nat → List Char
  | 0, _ => []
  | fuel + 1, n =>
    if n < 10 then [digitChar n]
    else natCharsAux fuel (n / 10) ++ [digitChar (n % 10)]

/-- Decimal rendering of a natural number, as the f-string
`f"## Page {page_num}"` renders `page_num`. -/
def natChars (n : Nat) : List Char := natCharsAux (n + 1) n

/-! ### The progressive job runner -/

/-- The block separator `"\n\n---\n\n"` written between page blocks
(src/src/pdf2md.py lines 93 and 130). -/
def sepStr : List Char := "\n\n---\n\n".data

/-- One page block `f"## Page {page_num}\n\n{response}"`
(src/src/pdf2md.py lines 94 and 131), for the deterministic backend
`resp`. -/
def pageBlock (resp : Nat → List Char) (p : Nat) : List Char :=
  (headerMark ++ natChars p) ++ '\n' :: '\n' :: resp p

/-- Result of one invocation of the progressive runner: the state of the
output file afterwards, the page numbers for which a backend (inference)
call was issued, in order, and whether the run aborted at start-page
validation. -/
structure RunOut where
  file : Option (List Char)
  calls : List Nat
  aborted : Bool
deriving Repr, DecidableEq

/-- The page loop shared verbatim by the OpenRouter and Ollama branches of
`query_gemma3_with_images_progressive` (src/src/pdf2md.py lines 79-99 and
108-133): iterate over the given page numbers; skip a page when it is
before the start page or already completed; otherwise issue a backend call
and append (separator, when `file_mode == "a"` or the page is past the
start page, then the page block) to the file, flushing immediately.
`modeA` is `file_mode == "a"`; `sp` is the (already clamped) start page. -/
def runPages (resp : Nat → List Char) (completed : Finset Nat) (modeA : Bool)
    (sp : Nat) : List Nat → List Char → List Nat → List Char × List Nat
  | [], content, calls => (content, calls)
  | p :: ps, content, calls =>
    if p < sp ∨ p ∈ completed then
      runPages resp completed modeA sp ps content calls
    else
      runPages resp completed modeA sp ps
        (content ++ (if modeA = true ∨ (modeA = false ∧ sp < p) then sepStr else []) ++
          pageBlock resp p)
        (calls ++ [p])

/-- Embedding of `query_gemma3_with_images_progressive`
(src/src/pdf2md.py lines 46-133), cut off after `steps` iterations of the
page loop to model a run interrupted by external process termination (every
completed page was flushed, so the file holds exactly the text appended so
far).  `L` is the number of pages (`len(image_bytes_list)`); `fs` is the
state of the output path before the run; `start_page` is the raw
(possibly non-positive) argument.  Faithful to the source order:
`completed_pages` and `is_resuming` are computed from the raw `start_page`,
the file mode is append iff resuming and the file exists, `start_page` is
then clamped to 1, and a start page beyond the page count prints an error
and returns before the file is opened.  Opening with mode `"w"` truncates;
mode `"a"` keeps the existing contents. -/
def progressiveSteps (resp : Nat → List Char) (L : Nat) (fs : Option (List Char))
    (start_page : Int) (steps : Nat) : RunOut :=
  let completed := get_completed_pages (fsOfOption fs)
  let isResuming : Bool := decide (start_page > 1) || decide (0 < completed.card)
  let modeA : Bool := isResuming && fs.isSome
  let sp : Int := if start_page < 1 then 1 else start_page
  if (L : Int) < sp then
    { file := fs, calls := [], aborted := true }
  else
    let c0 : List Char := if modeA then fs.getD [] else []
    let r := runPages resp completed modeA sp.toNat ((List.range' 1 L).take steps) c0 []
    { file := some r.1, calls := r.2, aborted := false }

/-- A complete (uninterrupted) run of `query_gemma3_with_images_progressive`
over `L` pages. -/
def query_gemma3_with_images_progressive (resp : Nat → List Char) (L : Nat)
    (fs : Option (List Char)) (start_page : Int) : RunOut :=
  progressiveSteps resp L fs start_page L

/-- Expected shape of the text appended after some block already stands in
the file: a separator before every further block. -/
def tailBlocks (resp : Nat → List Char) : List Nat → List Char
  | [] => []
  | q :: qs => sepStr ++ pageBlock resp q ++ tailBlocks resp qs

/-- Expected shape of a freshly written file: the page blocks in list
order, a single separator between consecutive blocks, none leading or
trailing. -/
def joinBlocks (resp : Nat → List Char) : List Nat → List Char
  | [] => []
  | p :: ps => pageBlock resp p ++ tailBlocks resp ps

/-! ### The OpenRouter client -/

/-- Base64 alphabet of RFC 4648, as used by Python's `base64.b64encode`. -/
def b64Chars : List Char :=
  "ABCDEFGHIJKLMNOPQRSTUVWXYZabcdefghijklmnopqrstuvwxyz0123456789+/".data

/-- Character for one 6-bit group. -/
def b64c (n : Nat) : Char := b64Chars.getD n '?'

/-- Base64 encoding of a byte string (bytes as naturals below 256),
modelling `base64.b64encode(img_bytes).decode('utf-8')`
(src/src/openrouter_client.py line 46): groups of three bytes become four
alphabet characters; a trailing group of one or two bytes is padded with
`'='`. -/
def base64Encode : List Nat → List Char
  | [] => []
  | [a] => [b64c (a / 4), b64c (a % 4 * 16), '=', '=']
  | [a, b] => [b64c (a / 4), b64c (a % 4 * 16 + b / 16), b64c (b % 16 * 4), '=']
  | a :: b :: c :: rest =>
    [b64c (a / 4), b64c (a % 4 * 16 + b / 16), b64c (b % 16 * 4 + c / 64), b64c (c % 64)] ++
      base64Encode rest

/-- Value of one base64 alphabet character (inverse of `b64c`). -/
def b64v (c : Char) : Nat :=
  if 'A' ≤ c ∧ c ≤ 'Z' then c.toNat - 65
  else if 'a' ≤ c ∧ c ≤ 'z' then c.toNat - 97 + 26
  else if '0' ≤ c ∧ c ≤ '9' then c.toNat - 48 + 52
  else if c = '+' then 62
  else if c = '/' then 63
  else 0

/-- Base64 decoding (the standard inverse, used to state the round-trip
property): four characters at a time, stopping at padding. -/
def base64Decode : List Char → List Nat
  | c1 :: c2 :: c3 :: c4 :: rest =>
    if c3 = '=' then [b64v c1 * 4 + b64v c2 / 16]
    else if c4 = '=' then
      [b64v c1 * 4 + b64v c2 / 16, b64v c2 % 16 * 16 + b64v c3 / 4]
    else
      [b64v c1 * 4 + b64v c2 / 16, b64v c2 % 16 * 16 + b64v c3 / 4,
        b64v c3 % 4 * 64 + b64v c4] ++ base64Decode rest
  | _ => []

/-- Embedding of `OpenRouterClient.encode_images_to_base64`
(src/src/openrouter_client.py lines 44-46): the list comprehension
`[base64.b64encode(img_bytes).decode('utf-8') for img_bytes in image_bytes_list]`. -/
def encode_images_to_base64 (image_bytes_list : List (List Nat)) : List (List Char) :=
  image_bytes_list.map base64Encode

/-- Rate limiter state: the single mutable field `self.last_request_time`
of `OpenRouterClient` (src/src/openrouter_client.py line 42). -/
structure RateLimiterState where
  last_request_time : ℚ
deriving Repr, DecidableEq

/-- State set by `OpenRouterClient.__init__`
(src/src/openrouter_client.py line 42): `self.last_request_time = 0` —
the Unix epoch, not the construction instant. -/
def initClientState : RateLimiterState := ⟨0⟩

/-- Embedding of `OpenRouterClient._wait_for_rate_limit`
(src/src/openrouter_client.py lines 48-58).  `now` is the value
`time.time()` returns on entry.  If less than `request_delay` has elapsed
since `last_request_time`, sleep the difference.  The returned rational is
the instant the call returns (idealised sleep); the new state stores the
second `time.time()` reading, taken after the wait. -/
def wait_for_rate_limit (request_delay : ℚ) (s : RateLimiterState) (now : ℚ) :
    ℚ × RateLimiterState :=
  let time_since_last_request := now - s.last_request_time
  if time_since_last_request < request_delay then
    let ret := now + (request_delay - time_since_last_request)
    (ret, ⟨ret⟩)
  else
    (now, ⟨now⟩)

/-- The delay `(self.backoff_factor ** attempt) + random.uniform(0.1, 0.5)`
computed before a 429 retry (src/src/openrouter_client.py lines 123 and
140), with the sampled jitter made explicit. -/
def backoff_delay (backoff_factor : ℚ) (attempt : Nat) (jitter : ℚ) : ℚ :=
  backoff_factor ^ attempt + jitter

/-- Substring test on character lists, modelling Python's
`"429" in str(e)` (src/src/openrouter_client.py line 137). -/
def listStarts : List Char → List Char → Bool
  | [], _ => true
  | _ :: _, [] => false
  | p :: ps, c :: cs => p = c && listStarts ps cs

/-- Whether `pat` occurs contiguously inside `s`. -/
def hasSub (pat : List Char) : List Char → Bool
  | [] => pat.isEmpty
  | c :: cs => listStarts pat (c :: cs) || hasSub pat cs

/-- Python's `"429" in str(e)`. -/
def has429 (s : List Char) : Bool := hasSub "429".data s

/-- Outcome of one `requests.post` attempt, as the environment determines
it: either an HTTP response — status code, whether `response.json()`
yields a JSON object, the `result["choices"][0]["message"]["content"]`
extraction (`none` models a `KeyError`), the text of the `HTTPError`
that `raise_for_status()` would raise, and the text of the decode error
`response.json()` would raise — or a transport-level
`requests.exceptions.RequestException` with its text. -/
inductive AttemptOutcome where
  | response (code : Nat) (jsonOk : Bool) (content : Option (List Char))
      (httpErrText jsonErrText : List Char)
  | exn (errText : List Char)

/-- How `chat_with_images` terminates (src/src/openrouter_client.py lines
110-153): the returned message content; the
`"429 Too Many Requests after {max_retries} retries"` error; the
`"OpenRouter API request failed: ..."` error re-raised from a
`RequestException`; the `"Unexpected response format"` error from a
`KeyError`; or the trailing `"Maximum retries exceeded"` raise after the
loop. -/
inductive ChatResult where
  | success (text : List Char)
  | rateLimitExceeded (retries : Int)
  | requestFailed (msg : List Char)
  | malformedResponse
  | maxRetriesExceeded
deriving Repr, DecidableEq

/-- Observable blocking events of `chat_with_images`: the single
`self._wait_for_rate_limit()` call, each `requests.post`, and each
backoff `time.sleep`. -/
inductive Ev where
  | rlWait
  | httpPost
  | backoffSleep
deriving Repr, DecidableEq

/-- The retry loop `for attempt in range(self.max_retries + 1)` of
`chat_with_images` (src/src/openrouter_client.py lines 110-153), with the
event trace it produces.  `fuel` is the number of remaining loop
iterations, `attempt` the current index.  Branches, in source order: a 429
status sleeps and continues when `attempt < max_retries` and the body
parses (the decode error otherwise flows to the `RequestException`
handler), else raises the rate-limit error; any other non-success status
makes `raise_for_status()` raise an `HTTPError`, caught by the
`RequestException` handler, which retries only when the error text
contains `"429"`; a success status returns the extracted content or raises
the `KeyError`-based error; a transport exception follows the same
`RequestException` handler.  When the loop runs out, the trailing
`raise Exception("Maximum retries exceeded")` fires. -/
def chatLoop (maxRetries : Int) (script : Nat → AttemptOutcome) :
    Nat → Nat → ChatResult × List Ev
  | 0, _ => (.maxRetriesExceeded, [])
  | fuel + 1, attempt =>
    match script attempt with
    | .exn errText =>
      if (attempt : Int) < maxRetries ∧ has429 errText = true then
        let r := chatLoop maxRetries script fuel (attempt + 1)
        (r.1, Ev.httpPost :: Ev.backoffSleep :: r.2)
      else (.requestFailed errText, [Ev.httpPost])
    | .response code jsonOk content httpErrText jsonErrText =>
      if code = 429 then
        if (attempt : Int) < maxRetries then
          if jsonOk then
            let r := chatLoop maxRetries script fuel (attempt + 1)
            (r.1, Ev.httpPost :: Ev.backoffSleep :: r.2)
          else if has429 jsonErrText then
            let r := chatLoop maxRetries script fuel (attempt + 1)
            (r.1, Ev.httpPost :: Ev.backoffSleep :: r.2)
          else (.requestFailed jsonErrText, [Ev.httpPost])
        else (.rateLimitExceeded maxRetries, [Ev.httpPost])
      else if 400 ≤ code ∧ code < 600 then
        if (attempt : Int) < maxRetries ∧ has429 httpErrText = true then
          let r := chatLoop maxRetries script fuel (attempt + 1)
          (r.1, Ev.httpPost :: Ev.backoffSleep :: r.2)
        else (.requestFailed httpErrText, [Ev.httpPost])
      else
        if jsonOk then
          match content with
          | some t => (.success t, [Ev.httpPost])
          | none => (.malformedResponse, [Ev.httpPost])
        else if (attempt : Int) < maxRetries ∧ has429 jsonErrText = true then
          let r := chatLoop maxRetries script fuel (attempt + 1)
          (r.1, Ev.httpPost :: Ev.backoffSleep :: r.2)
        else (.requestFailed jsonErrText, [Ev.httpPost])

/-- Embedding of `OpenRouterClient.chat_with_images`
(src/src/openrouter_client.py lines 60-153): one
`self._wait_for_rate_limit()` call (line 79), then the retry loop over
`range(self.max_retries + 1)`.  `script` gives the outcome of each
successive `requests.post`. -/
def chat_with_images (maxRetries : Int) (script : Nat → AttemptOutcome) :
    ChatResult × List Ev :=
  let r := chatLoop maxRetries script (maxRetries + 1).toNat 0
  (r.1, Ev.rlWait :: r.2)

/-- The throttling classification of one attempt outcome, read off the
`continue` conditions of `chat_with_images` (src/src/openrouter_client.py
lines 120-143): an outcome leads to a retry, when attempts remain, iff it
is a 429 whose body parses as a JSON object, or a 429 whose body-decode
error text contains `"429"`, or a non-429 `HTTPError` whose text contains
`"429"`, or a transport exception (including a success-status body-decode
failure) whose text contains `"429"`.  Every other outcome ends the call
at once. -/
def retryableOutcome : AttemptOutcome → Bool
  | .exn errText => has429 errText
  | .response code jsonOk _content httpErrText jsonErrText =>
    if code = 429 then jsonOk || has429 jsonErrText
    else if 400 ≤ code ∧ code < 600 then has429 httpErrText
    else !jsonOk && has429 jsonErrText

/-! ### Lemmas on lines and headers -/

theorem splitLines_ne_nil (l : List Char) : splitLines l ≠ [] := by
  induction l with
  | nil => simp [splitLines]
  | cons c cs ih =>
    simp only [splitLines]
    split
    · simp
    · cases h : splitLines cs with
      | nil => exact absurd h ih
      | cons a as => simp

theorem splitLines_cons_newline (b : List Char) :
    splitLines ('\n' :: b) = [] :: splitLines b := by
  simp [splitLines]

theorem splitLines_append_newline (a b : List Char) :
    splitLines (a ++ '\n' :: b) = splitLines a ++ splitLines b := by
  induction a with
  | nil => simp [splitLines]
  | cons c cs ih =>
    by_cases hc : c = '\n'
    · subst hc
      simp only [List.cons_append, splitLines_cons_newline, ih, List.nil_append]
    · cases h : splitLines cs with
      | nil => exact absurd h (splitLines_ne_nil cs)
      | cons x xs =>
        simp only [List.cons_append, splitLines, if_neg hc, List.append_eq, ih, h]

theorem splitLines_no_newline (l : List Char) (h : ∀ c ∈ l, c ≠ '\n') :
    splitLines l = [l] := by
  induction l with
  | nil => simp [splitLines]
  | cons c cs ih =>
    have hc : c ≠ '\n' := h c (by simp)
    have hcs : splitLines cs = [cs] := ih (fun x hx => h x (by simp [hx]))
    simp [splitLines, if_neg hc, hcs]

theorem digitsVal_append_singleton (xs : List Char) (c : Char) :
    digitsVal (xs ++ [c]) = 10 * digitsVal xs + (c.toNat - 48) := by
  simp [digitsVal, List.foldl_append]

theorem digitChar_isDigit {d : Nat} (h : d < 10) : (digitChar d).isDigit = true := by
  interval_cases d <;> decide

theorem digitChar_toNat {d : Nat} (h : d < 10) : (digitChar d).toNat = 48 + d := by
  interval_cases d <;> decide

theorem isDigit_ne_newline {c : Char} (h : c.isDigit = true) : c ≠ '\n' := by
  intro hc
  subst hc
  simp [Char.isDigit] at h

theorem natCharsAux_congr :
    ∀ f₁ : Nat, ∀ {f₂ n : Nat}, n < f₁ → n < f₂ → natCharsAux f₁ n = natCharsAux f₂ n := by
  intro f₁
  induction f₁ with
  | zero => intro f₂ n h₁ _; omega
  | succ f ih =>
    intro f₂ n h₁ h₂
    cases f₂ with
    | zero => omega
    | succ g =>
      simp only [natCharsAux]
      split
      · rfl
      · rename_i h
        rw [@ih g (n / 10) (by omega) (by omega)]

theorem natChars_unfold (n : Nat) :
    natChars n =
      if n < 10 then [digitChar n]
      else natChars (n / 10) ++ [digitChar (n % 10)] := by
  rw [natChars, natCharsAux]
  split
  · rfl
  · rename_i h
    rw [natChars, @natCharsAux_congr n (n / 10 + 1) (n / 10) (by omega) (by omega)]

theorem natChars_ne_nil (n : Nat) : natChars n ≠ [] := by
  rw [natChars_unfold]
  split
  · simp
  · simp

theorem natChars_all_digit (n : Nat) : ∀ c ∈ natChars n, c.isDigit = true := by
  induction n using Nat.strong_induction_on with
  | _ n ih =>
    rw [natChars_unfold]
    split
    · rename_i h
      intro c hc
      simp only [List.mem_singleton] at hc
      subst hc
      exact digitChar_isDigit h
    · rename_i h
      intro c hc
      rcases List.mem_append.mp hc with hc | hc
      · exact ih (n / 10) (Nat.div_lt_self (by omega) (by omega)) c hc
      · simp only [List.mem_singleton] at hc
        subst hc
        exact digitChar_isDigit (Nat.mod_lt _ (by omega))

theorem digitsVal_natChars (n : Nat) : digitsVal (natChars n) = n := by
  induction n using Nat.strong_induction_on with
  | _ n ih =>
    rw [natChars_unfold]
    split
    · rename_i h
      simp only [digitsVal, List.foldl_cons, List.foldl_nil]
      rw [digitChar_toNat h]
      omega
    · rename_i h
      rw [digitsVal_append_singleton, ih (n / 10) (Nat.div_lt_self (by omega) (by omega)),
        digitChar_toNat (Nat.mod_lt _ (by omega))]
      omega

theorem natChars_no_newline (n : Nat) : ∀ c ∈ natChars n, c ≠ '\n' :=
  fun c hc => isDigit_ne_newline (natChars_all_digit n c hc)

theorem take_length_append {α : Type} (l₁ l₂ : List α) :
    (l₁ ++ l₂).take l₁.length = l₁ := by
  induction l₁ with
  | nil => simp
  | cons a t ih => simp [ih]

theorem drop_length_append {α : Type} (l₁ l₂ : List α) :
    (l₁ ++ l₂).drop l₁.length = l₂ := by
  induction l₁ with
  | nil => simp
  | cons a t ih => simp [ih]

theorem headerMark_length : headerMark.length = 8 := by decide

theorem headerMark_no_newline : ∀ c ∈ headerMark, c ≠ '\n' := by decide

theorem parseHeader_of_eq {l : List Char} {ds : List Char} (hds : ds ≠ [])
    (hdig : ∀ d ∈ ds, d.isDigit = true) (hl : l = headerMark ++ ds) :
    parseHeader l = some (digitsVal ds) := by
  subst hl
  have ht : (headerMark ++ ds).take 8 = headerMark := by
    rw [show (8 : Nat) = headerMark.length from rfl]
    exact take_length_append headerMark ds
  have hd : (headerMark ++ ds).drop 8 = ds := by
    rw [show (8 : Nat) = headerMark.length from rfl]
    exact drop_length_append headerMark ds
  rw [parseHeader, if_pos]
  · rw [hd]
  · refine ⟨ht, ?_, ?_⟩
    · rw [hd]; exact hds
    · rw [hd, List.all_eq_true]
      intro d hd'
      exact hdig d hd'

theorem parseHeader_natChars (p : Nat) :
    parseHeader (headerMark ++ natChars p) = some p := by
  rw [parseHeader_of_eq (natChars_ne_nil p) (natChars_all_digit p) rfl,
    digitsVal_natChars]

theorem parseHeader_eq_some {l : List Char} {n : Nat} :
    parseHeader l = some n ↔
      ∃ ds, ds ≠ [] ∧ (∀ d ∈ ds, d.isDigit = true) ∧ l = headerMark ++ ds ∧
        digitsVal ds = n := by
  constructor
  · intro h
    rw [parseHeader] at h
    split at h
    · rename_i hcond
      obtain ⟨ht, hne, hall⟩ := hcond
      refine ⟨l.drop 8, hne, ?_, ?_, by injection h⟩
      · rw [List.all_eq_true] at hall
        exact hall
      · conv_lhs => rw [← List.take_append_drop 8 l, ht]
    · exact absurd h (by simp)
  · rintro ⟨ds, hne, hdig, rfl, rfl⟩
    exact parseHeader_of_eq hne hdig rfl

theorem parseHeader_nil : parseHeader [] = none := by decide

theorem parseHeader_dashes : parseHeader ['-', '-', '-'] = none := by decide

/-! ### Lemmas on the written page-block layout -/

theorem header_no_newline (p : Nat) : ∀ c ∈ headerMark ++ natChars p, c ≠ '\n' := by
  intro c hc
  rcases List.mem_append.mp hc with hc | hc
  · exact headerMark_no_newline c hc
  · exact natChars_no_newline p c hc

theorem splitLines_hdr_block (hdr rest X : List Char) (h : ∀ c ∈ hdr, c ≠ '\n') :
    splitLines ((hdr ++ '\n' :: '\n' :: rest) ++ X) = hdr :: [] :: splitLines (rest ++ X) := by
  have e : (hdr ++ '\n' :: '\n' :: rest) ++ X = hdr ++ '\n' :: ('\n' :: (rest ++ X)) := by
    simp
  rw [e, splitLines_append_newline, splitLines_no_newline hdr h, splitLines_cons_newline]
  rfl

theorem splitLines_sep (c X : List Char) :
    splitLines (c ++ (sepStr ++ X)) =
      splitLines c ++ [] :: ['-', '-', '-'] :: [] :: splitLines X := by
  have e : c ++ (sepStr ++ X) =
      c ++ '\n' :: ('\n' :: (['-', '-', '-'] ++ '\n' :: ('\n' :: X))) := rfl
  rw [e, splitLines_append_newline, splitLines_cons_newline, splitLines_append_newline,
    splitLines_no_newline ['-', '-', '-'] (by decide), splitLines_cons_newline]
  rfl

theorem headerNums_append_tailBlocks (resp : Nat → List Char) :
    ∀ qs : List Nat, (∀ q ∈ qs, ∀ l ∈ splitLines (resp q), parseHeader l = none) →
      ∀ c : List Char, headerNums (c ++ tailBlocks resp qs) = headerNums c ++ qs := by
  intro qs
  induction qs with
  | nil =>
    intro _ c
    simp [tailBlocks]
  | cons q qs ih =>
    intro hfree c
    have e : c ++ tailBlocks resp (q :: qs) =
        c ++ (sepStr ++ (pageBlock resp q ++ tailBlocks resp qs)) := by
      simp [tailBlocks]
    have hb : splitLines (pageBlock resp q ++ tailBlocks resp qs) =
        (headerMark ++ natChars q) :: [] :: splitLines (resp q ++ tailBlocks resp qs) :=
      splitLines_hdr_block _ _ _ (header_no_newline q)
    have hrest : (splitLines (resp q ++ tailBlocks resp qs)).filterMap parseHeader = qs := by
      have h1 := ih (fun a ha => hfree a (by simp [ha])) (resp q)
      rw [headerNums, headerNums] at h1
      rw [h1, List.filterMap_eq_nil_iff.mpr (hfree q (by simp)), List.nil_append]
    rw [headerNums, e, splitLines_sep, hb]
    simp only [List.filterMap_append, List.filterMap_cons, parseHeader_nil,
      parseHeader_dashes, parseHeader_natChars, hrest]
    simp [headerNums]

theorem headerNums_joinBlocks (resp : Nat → List Char) (p : Nat) (ps : List Nat)
    (hfree : ∀ q ∈ p :: ps, ∀ l ∈ splitLines (resp q), parseHeader l = none) :
    headerNums (joinBlocks resp (p :: ps)) = p :: ps := by
  have hb : splitLines (pageBlock resp p ++ tailBlocks resp ps) =
      (headerMark ++ natChars p) :: [] :: splitLines (resp p ++ tailBlocks resp ps) :=
    splitLines_hdr_block _ _ _ (header_no_newline p)
  have hrest : (splitLines (resp p ++ tailBlocks resp ps)).filterMap parseHeader = ps := by
    have h1 := headerNums_append_tailBlocks resp ps
      (fun a ha => hfree a (by simp [ha])) (resp p)
    rw [headerNums, headerNums] at h1
    rw [h1, List.filterMap_eq_nil_iff.mpr (hfree p (by simp)), List.nil_append]
  rw [joinBlocks, headerNums, hb]
  simp only [List.filterMap_cons, parseHeader_nil, parseHeader_natChars, hrest]

theorem tailBlocks_append (resp : Nat → List Char) (l₁ l₂ : List Nat) :
    tailBlocks resp (l₁ ++ l₂) = tailBlocks resp l₁ ++ tailBlocks resp l₂ := by
  induction l₁ with
  | nil => simp [tailBlocks]
  | cons q qs ih => simp [tailBlocks, ih]

theorem joinBlocks_append (resp : Nat → List Char) (p : Nat) (t l₂ : List Nat) :
    joinBlocks resp ((p :: t) ++ l₂) = joinBlocks resp (p :: t) ++ tailBlocks resp l₂ := by
  simp [joinBlocks, tailBlocks_append]

/-! ### Lemmas on the page loop -/

theorem runPages_skip (resp : Nat → List Char) (completed : Finset Nat) (modeA : Bool)
    (sp : Nat) :
    ∀ (ps : List Nat) (content : List Char) (calls : List Nat),
      (∀ p ∈ ps, p < sp ∨ p ∈ completed) →
      runPages resp completed modeA sp ps content calls = (content, calls) := by
  intro ps
  induction ps with
  | nil =>
    intro c cs _
    simp [runPages]
  | cons p ps ih =>
    intro c cs h
    simp only [runPages]
    rw [if_pos (h p (by simp))]
    exact ih _ _ (fun a ha => h a (by simp [ha]))

theorem runPages_write (resp : Nat → List Char) (completed : Finset Nat) (modeA : Bool)
    (sp : Nat) :
    ∀ (ps : List Nat) (content : List Char) (calls : List Nat),
      (∀ p ∈ ps, ¬p < sp ∧ p ∉ completed ∧ (modeA = true ∨ sp < p)) →
      runPages resp completed modeA sp ps content calls =
        (content ++ tailBlocks resp ps, calls ++ ps) := by
  intro ps
  induction ps with
  | nil =>
    intro c cs _
    simp [runPages, tailBlocks]
  | cons p ps ih =>
    intro c cs h
    obtain ⟨h1, h2, h3⟩ := h p (by simp)
    have hsep : (if modeA = true ∨ (modeA = false ∧ sp < p) then sepStr else []) = sepStr := by
      apply if_pos
      cases hm : modeA
      · exact Or.inr ⟨rfl, by simpa [hm] using h3⟩
      · exact Or.inl rfl
    simp only [runPages]
    rw [if_neg (by push_neg; exact ⟨not_lt.mp h1, h2⟩), hsep,
      ih _ _ (fun a ha => h a (by simp [ha]))]
    simp [tailBlocks]

theorem take_eq_of_length {α : Type} {l₁ : List α} (l₂ : List α) {k : Nat}
    (h : l₁.length = k) : (l₁ ++ l₂).take k = l₁ := by
  rw [← h, take_length_append]

theorem take_range' (s m n : Nat) (h : m ≤ n) :
    (List.range' s n).take m = List.range' s m := by
  rw [show n = (n - m) + m from by omega, ← List.range'_append_1]
  exact take_eq_of_length _ (List.length_range' s 1 m)

theorem joinBlocks_append_ne (resp : Nat → List Char) {l₁ : List Nat} (l₂ : List Nat)
    (h : l₁ ≠ []) :
    joinBlocks resp (l₁ ++ l₂) = joinBlocks resp l₁ ++ tailBlocks resp l₂ := by
  cases l₁ with
  | nil => exact absurd rfl h
  | cons p t => exact joinBlocks_append resp p t l₂

theorem headerNums_joinBlocks_ne (resp : Nat → List Char) {ps : List Nat} (h : ps ≠ [])
    (hfree : ∀ q ∈ ps, ∀ l ∈ splitLines (resp q), parseHeader l = none) :
    headerNums (joinBlocks resp ps) = ps := by
  cases ps with
  | nil => exact absurd rfl h
  | cons p t => exact headerNums_joinBlocks resp p t hfree

theorem runPages_append (resp : Nat → List Char) (completed : Finset Nat) (modeA : Bool)
    (sp : Nat) :
    ∀ (l₁ l₂ : List Nat) (content : List Char) (calls : List Nat),
      runPages resp completed modeA sp (l₁ ++ l₂) content calls =
        runPages resp completed modeA sp l₂
          (runPages resp completed modeA sp l₁ content calls).1
          (runPages resp completed modeA sp l₁ content calls).2 := by
  intro l₁
  induction l₁ with
  | nil =>
    intro l₂ c cs
    simp [runPages]
  | cons p ps ih =>
    intro l₂ c cs
    simp only [List.cons_append, runPages]
    split
    · exact ih l₂ c cs
    · exact ih l₂ _ _

theorem runPages_fresh (resp : Nat → List Char) (steps : Nat) (h1 : 1 ≤ steps) :
    runPages resp ∅ false 1 (List.range' 1 steps) [] [] =
      (joinBlocks resp (List.range' 1 steps), List.range' 1 steps) := by
  obtain ⟨m, rfl⟩ : ∃ m, steps = m + 1 := ⟨steps - 1, by omega⟩
  rw [List.range'_succ]
  have step1 : runPages resp ∅ false 1 (1 :: List.range' (1 + 1) m) [] [] =
      runPages resp ∅ false 1 (List.range' (1 + 1) m) (pageBlock resp 1) [1] := by
    simp [runPages]
  rw [step1, runPages_write resp ∅ false 1 (List.range' (1 + 1) m) _ _ ?hw]
  case hw =>
    intro p hp
    rw [List.mem_range'_1] at hp
    exact ⟨by omega, by simp, Or.inr (by omega)⟩
  simp [joinBlocks, tailBlocks]

theorem progressiveSteps_fresh (resp : Nat → List Char) (n steps : Nat)
    (h1 : 1 ≤ steps) (h2 : steps ≤ n) :
    progressiveSteps resp n none 1 steps =
      ⟨some (joinBlocks resp (List.range' 1 steps)), List.range' 1 steps, false⟩ := by
  have hn : ¬((n : Int) < 1) := by exact_mod_cast Nat.not_lt.mpr (by omega)
  simp only [progressiveSteps, fsOfOption, get_completed_pages, Finset.card_empty,
    Option.isSome_none, Bool.and_false, Bool.false_eq_true, if_false, ite_self,
    Option.getD_none, decide_eq_true_eq]
  rw [if_neg hn]
  simp only [Int.toNat_one, take_range' 1 steps n h2, Bool.false_eq_true, if_false]
  rw [runPages_fresh resp steps h1]

theorem progressiveSteps_resumed (resp : Nat → List Char) (N k : Nat)
    (hk : 1 ≤ k) (hkN : k ≤ N)
    (hfree : ∀ q ∈ List.range' 1 k, ∀ l ∈ splitLines (resp q), parseHeader l = none) :
    query_gemma3_with_images_progressive resp N
        (some (joinBlocks resp (List.range' 1 k))) 1 =
      ⟨some (joinBlocks resp (List.range' 1 N)), List.range' (k + 1) (N - k), false⟩ := by
  have hjoin : headerNums (joinBlocks resp (List.range' 1 k)) = List.range' 1 k :=
    headerNums_joinBlocks_ne resp ((List.range'_ne_nil 1).mpr (by omega)) hfree
  have hsplit : List.range' 1 k ++ List.range' (k + 1) (N - k) = List.range' 1 N := by
    have h := List.range'_append_1 1 k (N - k)
    rw [show N - k + k = N from by omega, show 1 + k = k + 1 from by omega] at h
    exact h
  have hmem : ∀ p, p ∈ (headerNums (joinBlocks resp (List.range' 1 k))).toFinset ↔
      (1 ≤ p ∧ p < 1 + k) := by
    intro p
    rw [hjoin, List.mem_toFinset, List.mem_range'_1]
  have hcard : 0 < (headerNums (joinBlocks resp (List.range' 1 k))).toFinset.card := by
    exact Finset.card_pos.mpr ⟨1, (hmem 1).mpr (by omega)⟩
  have hN : ¬((N : Int) < 1) := by exact_mod_cast Nat.not_lt.mpr (by omega)
  have hmode : (decide ((1 : Int) > 1) ||
      decide (0 < (headerNums (joinBlocks resp (List.range' 1 k))).toFinset.card)) = true := by
    simp [hcard]
  simp only [query_gemma3_with_images_progressive, progressiveSteps, fsOfOption,
    get_completed_pages, Option.isSome_some, Bool.and_true, hmode, ite_self,
    Option.getD_some, eq_self_iff_true, if_true]
  rw [if_neg hN]
  simp only [Int.toNat_one, take_range' 1 N N le_rfl]
  rw [← hsplit, runPages_append, runPages_skip resp _ true 1 (List.range' 1 k) _ _ ?hskip,
    runPages_write resp _ true 1 (List.range' (k + 1) (N - k)) _ _ ?hwrite]
  case hskip =>
    intro p hp
    rw [List.mem_range'_1] at hp
    exact Or.inr ((hmem p).mpr (by omega))
  case hwrite =>
    intro p hp
    rw [List.mem_range'_1] at hp
    refine ⟨by omega, ?_, Or.inl rfl⟩
    intro hmem'
    have := (hmem p).mp hmem'
    omega
  rw [← joinBlocks_append_ne resp (List.range' (k + 1) (N - k))
    ((List.range'_ne_nil 1).mpr (by omega)), hsplit]
  simp

theorem progressiveSteps_append_empty (resp : Nat → List Char) (L sp : Nat)
    (h2 : 2 ≤ sp) (hL : sp ≤ L) :
    query_gemma3_with_images_progressive resp L (some []) (sp : Int) =
      ⟨some (tailBlocks resp (List.range' sp (L + 1 - sp))),
        List.range' sp (L + 1 - sp), false⟩ := by
  have hempty : headerNums ([] : List Char) = [] := by decide
  have hres : ((1 : Int) < (sp : Int)) := by exact_mod_cast (by omega : 1 < sp)
  have hclamp : ¬((sp : Int) < 1) := by exact_mod_cast Nat.not_lt.mpr (by omega)
  have habort : ¬((L : Int) < (sp : Int)) := by exact_mod_cast Nat.not_lt.mpr (by omega)
  have hsplit : List.range' 1 (sp - 1) ++ List.range' sp (L + 1 - sp) = List.range' 1 L := by
    have h := List.range'_append_1 1 (sp - 1) (L + 1 - sp)
    rw [show L + 1 - sp + (sp - 1) = L from by omega, show 1 + (sp - 1) = sp from by omega] at h
    exact h
  have hmode : (decide ((sp : Int) > 1) ||
      decide (0 < (([] : List Nat)).toFinset.card)) = true := by
    simp [gt_iff_lt, hres]
  simp only [query_gemma3_with_images_progressive, progressiveSteps, fsOfOption,
    get_completed_pages, hempty, hmode, Option.isSome_some, Bool.and_true,
    Option.getD_some, eq_self_iff_true, if_true, ite_self]
  rw [if_neg hclamp, if_neg habort]
  simp only [Int.toNat_ofNat, take_range' 1 L L le_rfl]
  rw [← hsplit, runPages_append, runPages_skip resp _ true sp (List.range' 1 (sp - 1)) _ _ ?hskip,
    runPages_write resp _ true sp (List.range' sp (L + 1 - sp)) _ _ ?hwrite]
  case hskip =>
    intro p hp
    rw [List.mem_range'_1] at hp
    exact Or.inl (by omega)
  case hwrite =>
    intro p hp
    rw [List.mem_range'_1] at hp
    refine ⟨by omega, by simp, Or.inl rfl⟩
  simp

/-! ### Claim C5: resume parsing -/

/-- C5.  `get_completed_pages` returns the empty set when no file exists at
the output path; otherwise it returns exactly the set of integers `n` such
that the file contains a (full) line `## Page n` with `n` one or more
digits, duplicates collapsed; and a read failure yields the empty set
(with a warning) instead of an exception — the embedded function is total
by construction, so the job is never aborted by resume parsing. -/
theorem c5_resume_parsing :
    get_completed_pages FileState.absent = ∅ ∧
    get_completed_pages FileState.unreadable = ∅ ∧
    ∀ (c : List Char) (n : Nat),
      n ∈ get_completed_pages (FileState.present c) ↔
        ∃ l ∈ splitLines c, ∃ ds : List Char,
          ds ≠ [] ∧ (∀ d ∈ ds, d.isDigit = true) ∧ l = headerMark ++ ds ∧
            digitsVal ds = n := by
  refine ⟨rfl, rfl, ?_⟩
  intro c n
  show n ∈ (headerNums c).toFinset ↔ _
  rw [List.mem_toFinset, headerNums, List.mem_filterMap]
  constructor
  · rintro ⟨l, hl, hp⟩
    obtain ⟨ds, h1, h2, h3, h4⟩ := parseHeader_eq_some.mp hp
    exact ⟨l, hl, ds, h1, h2, h3, h4⟩
  · rintro ⟨l, hl, ds, h1, h2, h3, h4⟩
    exact ⟨l, hl, parseHeader_eq_some.mpr ⟨ds, h1, h2, h3, h4⟩⟩

/-- Witness for C5 at a concrete file: a file whose text is `## Page 7`
has completed-page set containing 7. -/
theorem c5_resume_parsing_witness :
    7 ∈ get_completed_pages (FileState.present ("## Page 7".data)) :=
  (c5_resume_parsing.2.2 ("## Page 7".data) 7).mpr
    ⟨"## Page 7".data, by decide, ['7'], by decide, by decide, by decide, by decide⟩

/-! ### Claim C7: start-page validation -/

/-- C7.  A `start_page < 1` is clamped: the run behaves exactly as with
`start_page = 1`.  A `start_page` beyond the page count aborts with a
printed error (the `aborted` flag) before the output file is opened: the
file state is unchanged and no backend call is issued. -/
theorem c7_start_page_validation (resp : Nat → List Char) (L : Nat)
    (fs : Option (List Char)) (sp : Int) :
    (sp < 1 →
      query_gemma3_with_images_progressive resp L fs sp =
        query_gemma3_with_images_progressive resp L fs 1) ∧
    (1 ≤ sp → (L : Int) < sp →
      query_gemma3_with_images_progressive resp L fs sp =
        { file := fs, calls := [], aborted := true }) := by
  constructor
  · intro h
    have e1 : decide (sp > 1) = false := decide_eq_false (by omega)
    have e2 : decide ((1 : Int) > 1) = false := by decide
    have e3 : (if sp < 1 then (1 : Int) else sp) = 1 := if_pos h
    have e4 : (if (1 : Int) < 1 then (1 : Int) else 1) = 1 := ite_self 1
    simp only [query_gemma3_with_images_progressive, progressiveSteps, e1, e2, e3, e4]
  · intro h1 h2
    have e3 : (if sp < 1 then (1 : Int) else sp) = sp := if_neg (by omega)
    simp only [query_gemma3_with_images_progressive, progressiveSteps, e3]
    rw [if_pos h2]

/-- Witness for C7 at concrete inputs: `start_page = 0` behaves as
`start_page = 1`, and `start_page = 10` on a 3-page document aborts
leaving the (absent) output untouched with no backend call. -/
theorem c7_start_page_validation_witness :
    query_gemma3_with_images_progressive (fun _ => ['X']) 3 none 0 =
        query_gemma3_with_images_progressive (fun _ => ['X']) 3 none 1 ∧
      query_gemma3_with_images_progressive (fun _ => ['X']) 3 none 10 =
        { file := none, calls := [], aborted := true } :=
  ⟨(c7_start_page_validation (fun _ => ['X']) 3 none 0).1 (by decide),
    (c7_start_page_validation (fun _ => ['X']) 3 none 10).2 (by decide) (by decide)⟩

/-! ### Claim C6: separator placement -/

/-- Counterexample to C6 as stated.  The claim asserts that in append mode
no separator is written before the first appended block when the existing
file is empty.  Take an existing empty output file and `start_page = 2` on
a 2-page document (so the file is opened in append mode): the source
writes the separator before the very first block physically written into
the file, producing a leading `\n\n---\n\n`. -/
theorem c6_counterexample :
    (query_gemma3_with_images_progressive (fun _ => ['X']) 2 (some []) 2).file =
      some ("\n\n---\n\n## Page 2\n\nX".data) := by decide

/-- C6 (amended).  In overwrite mode a separator is written before a page
block iff the block is not the very first one written in this run: a fresh
run over `N ≥ 1` pages produces exactly the page blocks in ascending order
with one separator between consecutive blocks and none leading or trailing
(`joinBlocks`).  In append mode, however, a separator is written before
every block written in this run — including the first, even when the
existing file is empty (`tailBlocks` starting at the effective start
page). -/
theorem c6_separator_placement (resp : Nat → List Char) (N L sp : Nat)
    (hN : 1 ≤ N) (hsp : 2 ≤ sp) (hspL : sp ≤ L) :
    query_gemma3_with_images_progressive resp N none 1 =
      ⟨some (joinBlocks resp (List.range' 1 N)), List.range' 1 N, false⟩ ∧
    (query_gemma3_with_images_progressive resp L (some []) (sp : Int)).file =
      some (tailBlocks resp (List.range' sp (L + 1 - sp))) := by
  constructor
  · exact progressiveSteps_fresh resp N N hN le_rfl
  · rw [progressiveSteps_append_empty resp L sp hsp hspL]

/-- Witness for C6 at concrete inputs: a fresh 3-page run, and an
append-mode run from page 2 of 3 over an empty existing file. -/
theorem c6_separator_placement_witness :
    query_gemma3_with_images_progressive (fun _ => ['X']) 3 none 1 =
      ⟨some (joinBlocks (fun _ => ['X']) (List.range' 1 3)), List.range' 1 3, false⟩ ∧
    (query_gemma3_with_images_progressive (fun _ => ['X']) 3 (some []) (2 : Int)).file =
      some (tailBlocks (fun _ => ['X']) (List.range' 2 (3 + 1 - 2))) :=
  c6_separator_placement (fun _ => ['X']) 3 3 2 (by decide) (by decide) (by decide)

/-! ### Claim C1: idempotent resume -/

/-- Counterexample to C1 as stated.  The claim quantifies over every
deterministic backend, but resumption infers completed pages from the
output text itself, so a backend whose response contains a line that is
itself a page header corrupts the bookkeeping.  With 2 pages, backend
response `"## Page 1"` for every page, a first run interrupted after page
1, and a completing second run, the header `## Page 1` appears three
times in the final file — the claim requires each page number to appear
as a header exactly once. -/
theorem c1_counterexample :
    (headerNums ((query_gemma3_with_images_progressive (fun _ => "## Page 1".data) 2
        (progressiveSteps (fun _ => "## Page 1".data) 2 none 1 1).file 1).file.getD
          [])).count 1 = 3 := by decide

/-- C1 (amended).  For every deterministic backend none of whose responses
contains a full line matching `## Page <digits>`: if a fresh first run
over `N` pages is interrupted after writing pages `1..k` (`1 ≤ k < N`) and
a second run with the same inputs and output path completes, then the
final file equals that of an uninterrupted full run, its completed-page
set is exactly `{1..N}`, each page number in `1..N` occurs as a header
exactly once, and the second run issues backend calls exactly for pages
`k+1..N` — none for any page in `1..k`. -/
theorem c1_idempotent_resume (resp : Nat → List Char) (N k : Nat)
    (hk : 1 ≤ k) (hkN : k < N)
    (hfree : ∀ p, 1 ≤ p → p ≤ N → ∀ l ∈ splitLines (resp p), parseHeader l = none) :
    (query_gemma3_with_images_progressive resp N
        (progressiveSteps resp N none 1 k).file 1).file =
      (query_gemma3_with_images_progressive resp N none 1).file ∧
    get_completed_pages (fsOfOption (query_gemma3_with_images_progressive resp N
        (progressiveSteps resp N none 1 k).file 1).file) = Finset.Icc 1 N ∧
    (∀ p, 1 ≤ p → p ≤ N →
      (headerNums ((query_gemma3_with_images_progressive resp N
        (progressiveSteps resp N none 1 k).file 1).file.getD [])).count p = 1) ∧
    (query_gemma3_with_images_progressive resp N
        (progressiveSteps resp N none 1 k).file 1).calls =
      List.range' (k + 1) (N - k) ∧
    ∀ p ≤ k, p ∉ (query_gemma3_with_images_progressive resp N
        (progressiveSteps resp N none 1 k).file 1).calls := by
  have hfree' : ∀ q ∈ List.range' 1 k, ∀ l ∈ splitLines (resp q), parseHeader l = none := by
    intro q hq
    rw [List.mem_range'_1] at hq
    exact hfree q (by omega) (by omega)
  have hfreeN : ∀ q ∈ List.range' 1 N, ∀ l ∈ splitLines (resp q), parseHeader l = none := by
    intro q hq
    rw [List.mem_range'_1] at hq
    exact hfree q (by omega) (by omega)
  have h1 : progressiveSteps resp N none 1 k =
      ⟨some (joinBlocks resp (List.range' 1 k)), List.range' 1 k, false⟩ :=
    progressiveSteps_fresh resp N k hk (by omega)
  have h2 : query_gemma3_with_images_progressive resp N
      (some (joinBlocks resp (List.range' 1 k))) 1 =
      ⟨some (joinBlocks resp (List.range' 1 N)), List.range' (k + 1) (N - k), false⟩ :=
    progressiveSteps_resumed resp N k hk (by omega) hfree'
  have h3 : query_gemma3_with_images_progressive resp N none 1 =
      ⟨some (joinBlocks resp (List.range' 1 N)), List.range' 1 N, false⟩ :=
    progressiveSteps_fresh resp N N (by omega) le_rfl
  have hjoinN : headerNums (joinBlocks resp (List.range' 1 N)) = List.range' 1 N :=
    headerNums_joinBlocks_ne resp ((List.range'_ne_nil 1).mpr (by omega)) hfreeN
  simp only [h1, h2, h3, fsOfOption, get_completed_pages, Option.getD_some]
  refine ⟨by trivial, ?_, ?_, by trivial, ?_⟩
  · rw [hjoinN]
    ext a
    rw [List.mem_toFinset, List.mem_range'_1, Finset.mem_Icc]
    omega
  · intro p hp1 hp2
    rw [hjoinN]
    exact List.count_eq_one_of_mem (List.nodup_range' 1 N)
      (List.mem_range'_1.mpr (by omega))
  · intro p hp hmem
    rw [List.mem_range'_1] at hmem
    omega

/-- Witness for C1 (amended) at concrete inputs: 2 pages with plain
one-character responses, interrupted after page 1. -/
theorem c1_idempotent_resume_witness :
    (query_gemma3_with_images_progressive (fun _ => ['X']) 2
        (progressiveSteps (fun _ => ['X']) 2 none 1 1).file 1).file =
      (query_gemma3_with_images_progressive (fun _ => ['X']) 2 none 1).file ∧
    get_completed_pages (fsOfOption (query_gemma3_with_images_progressive (fun _ => ['X']) 2
        (progressiveSteps (fun _ => ['X']) 2 none 1 1).file 1).file) = Finset.Icc 1 2 ∧
    (∀ p, 1 ≤ p → p ≤ 2 →
      (headerNums ((query_gemma3_with_images_progressive (fun _ => ['X']) 2
        (progressiveSteps (fun _ => ['X']) 2 none 1 1).file 1).file.getD [])).count p = 1) ∧
    (query_gemma3_with_images_progressive (fun _ => ['X']) 2
        (progressiveSteps (fun _ => ['X']) 2 none 1 1).file 1).calls =
      List.range' (1 + 1) (2 - 1) ∧
    ∀ p ≤ 1, p ∉ (query_gemma3_with_images_progressive (fun _ => ['X']) 2
        (progressiveSteps (fun _ => ['X']) 2 none 1 1).file 1).calls :=
  c1_idempotent_resume (fun _ => ['X']) 2 1 (by decide) (by decide)
    (fun p _ _ => by
      show ∀ l ∈ splitLines ['X'], parseHeader l = none
      decide)

/-! ### Lemmas on the retry loop -/

theorem chatLoop_count_rlWait (maxRetries : Int) (script : Nat → AttemptOutcome) :
    ∀ (fuel attempt : Nat),
      ((chatLoop maxRetries script fuel attempt).2).count Ev.rlWait = 0 := by
  intro fuel
  induction fuel with
  | zero => intro attempt; simp [chatLoop]
  | succ f ih =>
    intro attempt
    cases hsc : script attempt with
    | exn errText =>
      simp only [chatLoop, hsc]
      split
      · simp [List.count_cons, ih]
      · simp [List.count_cons]
    | response code jsonOk content httpErrText jsonErrText =>
      simp only [chatLoop, hsc]
      split_ifs <;> try simp [List.count_cons, ih]
      cases content <;> simp [List.count_cons]

theorem chatLoop_ne_max (m : Int) (script : Nat → AttemptOutcome) :
    ∀ (fuel attempt : Nat), (attempt : Int) + (fuel : Int) = m + 1 → 1 ≤ fuel →
      (chatLoop m script fuel attempt).1 ≠ ChatResult.maxRetriesExceeded := by
  intro fuel
  induction fuel with
  | zero => intro attempt _ h; omega
  | succ f ih =>
    intro attempt h1 _
    cases hsc : script attempt with
    | exn errText =>
      simp only [chatLoop, hsc]
      split
      · rename_i hcond
        exact ih (attempt + 1) (by push_cast at h1 ⊢; omega)
          (by have := hcond.1; push_cast at h1; omega)
      · simp
    | response code jsonOk content httpErrText jsonErrText =>
      simp only [chatLoop, hsc]
      by_cases hc : code = 429
      · rw [if_pos hc]
        by_cases hlt : (attempt : Int) < m
        · rw [if_pos hlt]
          cases jsonOk
          · rw [if_neg (by simp)]
            split
            · exact ih (attempt + 1) (by push_cast at h1 ⊢; omega)
                (by push_cast at h1; omega)
            · simp
          · rw [if_pos rfl]
            exact ih (attempt + 1) (by push_cast at h1 ⊢; omega)
              (by push_cast at h1; omega)
        · rw [if_neg hlt]
          simp
      · rw [if_neg hc]
        by_cases hrange : 400 ≤ code ∧ code < 600
        · rw [if_pos hrange]
          split
          · rename_i hcond
            exact ih (attempt + 1) (by push_cast at h1 ⊢; omega)
              (by have := hcond.1; push_cast at h1; omega)
          · simp
        · rw [if_neg hrange]
          cases jsonOk
          · rw [if_neg (by simp)]
            split
            · rename_i hcond
              exact ih (attempt + 1) (by push_cast at h1 ⊢; omega)
                (by have := hcond.1; push_cast at h1; omega)
            · simp
          · rw [if_pos rfl]
            cases content <;> simp

theorem chatLoop_sustained_429 (m : Nat) (script : Nat → AttemptOutcome)
    (hs : ∀ a, a ≤ m →
      ∃ cont httpErrText jsonErrText,
        script a = AttemptOutcome.response 429 true cont httpErrText jsonErrText) :
    ∀ (fuel attempt : Nat), attempt + fuel = m + 1 → 1 ≤ fuel →
      (chatLoop (m : Int) script fuel attempt).1 = ChatResult.rateLimitExceeded (m : Int) ∧
      ((chatLoop (m : Int) script fuel attempt).2).count Ev.httpPost = fuel := by
  intro fuel
  induction fuel with
  | zero => intro attempt _ h; omega
  | succ f ih =>
    intro attempt h1 _
    obtain ⟨cont, he, je, hsc⟩ := hs attempt (by omega)
    by_cases hf : f = 0
    · subst hf
      have ham : attempt = m := by omega
      have hnlt : ¬((attempt : Int) < (m : Int)) := by
        subst ham; omega
      simp only [chatLoop, hsc, if_pos rfl, if_neg hnlt]
      subst ham
      simp [List.count_cons]
    · have hlt : (attempt : Int) < (m : Int) := by
        have : attempt < m := by omega
        exact_mod_cast this
      obtain ⟨ih1, ih2⟩ := ih (attempt + 1) (by omega) (by omega)
      simp only [chatLoop, hsc, if_pos rfl, if_pos hlt]
      exact ⟨ih1, by simp [List.count_cons, ih2]⟩

theorem chatLoop_nonretryable (m : Int) (script : Nat → AttemptOutcome)
    (fuel attempt : Nat) (h : retryableOutcome (script attempt) = false) :
    (chatLoop m script (fuel + 1) attempt).2 = [Ev.httpPost] := by
  cases hsc : script attempt with
  | exn errText =>
    rw [hsc] at h
    simp only [retryableOutcome] at h
    simp only [chatLoop, hsc]
    rw [if_neg (by simp [h])]
  | response code jsonOk content httpErrText jsonErrText =>
    rw [hsc] at h
    simp only [retryableOutcome] at h
    simp only [chatLoop, hsc]
    by_cases hc : code = 429
    · rw [if_pos hc] at h ⊢
      cases jsonOk
      · simp only [Bool.false_or] at h
        by_cases hlt : (attempt : Int) < m
        · rw [if_pos hlt, if_neg (by simp), if_neg (by simp [h])]
        · rw [if_neg hlt]
      · simp at h
    · rw [if_neg hc] at h ⊢
      by_cases hr : 400 ≤ code ∧ code < 600
      · rw [if_pos hr] at h ⊢
        rw [if_neg (by simp [h])]
      · rw [if_neg hr] at h ⊢
        cases jsonOk
        · simp only [Bool.not_false, Bool.true_and] at h
          rw [if_neg (by simp), if_neg (by simp [h])]
        · rw [if_pos rfl]
          cases content <;> rfl

theorem chatLoop_count_le (m : Int) (script : Nat → AttemptOutcome) (a : Nat)
    (h : retryableOutcome (script a) = false) :
    ∀ (fuel attempt : Nat), attempt ≤ a →
      ((chatLoop m script fuel attempt).2).count Ev.httpPost ≤ a + 1 - attempt := by
  intro fuel
  induction fuel with
  | zero =>
    intro attempt hle
    simp [chatLoop]
  | succ f ih =>
    intro attempt hle
    by_cases heq : attempt = a
    · subst heq
      rw [chatLoop_nonretryable m script f attempt h]
      simp [List.count_cons, List.count_nil]
    · have hlt : attempt < a := by omega
      cases hsc : script attempt with
      | exn errText =>
        simp only [chatLoop, hsc]
        split
        · have := ih (attempt + 1) (by omega)
          simp [List.count_cons, List.count_nil]
          omega
        · simp [List.count_cons, List.count_nil]
          omega
      | response code jsonOk content httpErrText jsonErrText =>
        simp only [chatLoop, hsc]
        by_cases hc : code = 429
        · rw [if_pos hc]
          by_cases hlt2 : (attempt : Int) < m
          · rw [if_pos hlt2]
            cases jsonOk
            · rw [if_neg (by simp)]
              split
              · have := ih (attempt + 1) (by omega)
                simp [List.count_cons, List.count_nil]
                omega
              · simp [List.count_cons, List.count_nil]
                omega
            · rw [if_pos rfl]
              have := ih (attempt + 1) (by omega)
              simp [List.count_cons, List.count_nil]
              omega
          · rw [if_neg hlt2]
            simp [List.count_cons, List.count_nil]
            omega
        · rw [if_neg hc]
          by_cases hr : 400 ≤ code ∧ code < 600
          · rw [if_pos hr]
            split
            · have := ih (attempt + 1) (by omega)
              simp [List.count_cons, List.count_nil]
              omega
            · simp [List.count_cons, List.count_nil]
              omega
          · rw [if_neg hr]
            cases jsonOk
            · rw [if_neg (by simp)]
              split
              · have := ih (attempt + 1) (by omega)
                simp [List.count_cons, List.count_nil]
                omega
              · simp [List.count_cons, List.count_nil]
                omega
            · rw [if_pos rfl]
              cases content <;> simp [List.count_cons, List.count_nil] <;> omega

/-! ### Claim C9: the trailing raise is unreachable -/

/-- C9.  When `max_retries ≥ 0`, every iteration of the retry loop either
returns, raises, or continues to an iteration that exists, so
`chat_with_images` never reaches the trailing
`raise Exception("Maximum retries exceeded")`; when `max_retries < 0`,
`range(max_retries + 1)` is empty, no request is issued, and that trailing
raise is the outcome. -/
theorem c9_unreachable_fallback (m : Int) (script : Nat → AttemptOutcome) :
    (0 ≤ m → (chat_with_images m script).1 ≠ ChatResult.maxRetriesExceeded) ∧
    (m < 0 → chat_with_images m script = (ChatResult.maxRetriesExceeded, [Ev.rlWait])) := by
  constructor
  · intro hm
    have hfuel : (((m + 1).toNat : Nat) : Int) = m + 1 := Int.toNat_of_nonneg (by omega)
    exact chatLoop_ne_max m script ((m + 1).toNat) 0 (by rw [hfuel]; ring) (by omega)
  · intro hm
    have hz : (m + 1).toNat = 0 := by omega
    simp only [chat_with_images, hz, chatLoop]

/-- Witness for C9 at concrete inputs: with `max_retries = 0` and a
success response, the trailing raise is not the result; with
`max_retries = -1` it is, after zero requests. -/
theorem c9_unreachable_fallback_witness :
    ((0 : Int) ≤ 0 →
      (chat_with_images 0 (fun _ => AttemptOutcome.response 200 true (some ['h']) [] [])).1 ≠
        ChatResult.maxRetriesExceeded) ∧
    ((-1 : Int) < 0 →
      chat_with_images (-1) (fun _ => AttemptOutcome.response 200 true (some ['h']) [] []) =
        (ChatResult.maxRetriesExceeded, [Ev.rlWait])) :=
  ⟨(c9_unreachable_fallback 0 (fun _ => AttemptOutcome.response 200 true (some ['h']) [] [])).1,
    (c9_unreachable_fallback (-1) (fun _ => AttemptOutcome.response 200 true (some ['h']) [] [])).2⟩

/-! ### Claim C2: retry scoping -/

/-- Counterexample to C2 as stated.  The claim asserts that every
sustained 429 response yields exactly `max_retries` retries and then a
rate-limit error.  But on the retry path `response.json()` runs before
the sleep (src/src/openrouter_client.py line 124), so a 429 whose body is
not JSON (a throttling HTML page, say) raises a decode error that reaches
the `RequestException` handler; its text carries no `"429"`, so with
`max_retries = 3` the call fails after a single HTTP request — zero
retries and a request-failed error, not `max_retries + 1` requests and a
rate-limit error. -/
theorem c2_counterexample :
    chat_with_images 3
        (fun _ => AttemptOutcome.response 429 false none []
          "Expecting value: line 1 column 1 (char 0)".data) =
      (ChatResult.requestFailed "Expecting value: line 1 column 1 (char 0)".data,
        [Ev.rlWait, Ev.httpPost]) := by decide

/-- C2 (amended).  In `chat_with_images`: (i) a first response with a
non-429 non-success status whose `HTTPError` text does not contain
`"429"` (as for a standard 500) fails immediately with the request-failed
error after exactly one HTTP request — zero retries; (ii) a sustained 429
whose bodies parse as JSON objects — the normal shape of a throttling
reply — performs exactly `max_retries` retries after the initial attempt,
hence `max_retries + 1` HTTP requests, and fails with the
rate-limit-exceeded error carrying the configured retry count; (iii) only
throttling-classified outcomes are ever retried: if the outcome of
attempt `a` is not `retryableOutcome`, the whole call issues at most
`a + 1` HTTP requests; (iv) a 429 whose body fails to parse as JSON
(decode-error text without `"429"`) fails immediately with the
request-failed error even though retries remain; and (v) a non-429 HTTP
error whose text does contain `"429"` is retried — the first request is
followed by a backoff sleep, not a failure. -/
theorem c2_retry_scoping (m : Nat) (script : Nat → AttemptOutcome) :
    (∀ (code : Nat) (jsonOk : Bool) (content : Option (List Char))
        (httpErrText jsonErrText : List Char),
      script 0 = AttemptOutcome.response code jsonOk content httpErrText jsonErrText →
      400 ≤ code → code < 600 → code ≠ 429 → has429 httpErrText = false →
      chat_with_images (m : Int) script =
        (ChatResult.requestFailed httpErrText, [Ev.rlWait, Ev.httpPost])) ∧
    ((∀ a, a ≤ m →
        ∃ cont httpErrText jsonErrText,
          script a = AttemptOutcome.response 429 true cont httpErrText jsonErrText) →
      (chat_with_images (m : Int) script).1 = ChatResult.rateLimitExceeded (m : Int) ∧
      ((chat_with_images (m : Int) script).2).count Ev.httpPost = m + 1) ∧
    (∀ a, retryableOutcome (script a) = false →
      ((chat_with_images (m : Int) script).2).count Ev.httpPost ≤ a + 1) ∧
    (∀ (cont : Option (List Char)) (httpErrText jsonErrText : List Char),
      script 0 = AttemptOutcome.response 429 false cont httpErrText jsonErrText →
      has429 jsonErrText = false → 1 ≤ m →
      chat_with_images (m : Int) script =
        (ChatResult.requestFailed jsonErrText, [Ev.rlWait, Ev.httpPost])) ∧
    (∀ (code : Nat) (jsonOk : Bool) (content : Option (List Char))
        (httpErrText jsonErrText : List Char),
      script 0 = AttemptOutcome.response code jsonOk content httpErrText jsonErrText →
      400 ≤ code → code < 600 → code ≠ 429 → has429 httpErrText = true → 1 ≤ m →
      ((chat_with_images (m : Int) script).2).take 3 =
        [Ev.rlWait, Ev.httpPost, Ev.backoffSleep]) := by
  refine ⟨?_, ?_, ?_, ?_, ?_⟩
  · intro code jsonOk content he je hsc h400 h600 hne h429
    simp only [chat_with_images, Int.toNat_ofNat_add_one, chatLoop, hsc]
    rw [if_neg hne, if_pos ⟨h400, h600⟩, if_neg (by simp [h429])]
  · intro hs
    obtain ⟨h1, h2⟩ := chatLoop_sustained_429 m script hs (m + 1) 0 (by omega) (by omega)
    simp only [chat_with_images, Int.toNat_ofNat_add_one]
    refine ⟨h1, ?_⟩
    rw [List.count_cons_of_ne (by decide), h2]
  · intro a ha
    simp only [chat_with_images, Int.toNat_ofNat_add_one]
    rw [List.count_cons_of_ne (by decide)]
    have := chatLoop_count_le ((m : Nat) : Int) script a ha (m + 1) 0 (by omega)
    omega
  · intro cont he je hsc hje hm
    have hlt : ((0 : Nat) : Int) < (m : Int) := by exact_mod_cast (by omega : 0 < m)
    simp only [chat_with_images, Int.toNat_ofNat_add_one, chatLoop, hsc]
    rw [if_pos trivial, if_pos hlt, if_neg (by simp), if_neg (by simp [hje])]
  · intro code jsonOk content he je hsc h400 h600 hne h429t hm
    have hlt : ((0 : Nat) : Int) < (m : Int) := by exact_mod_cast (by omega : 0 < m)
    simp only [chat_with_images, Int.toNat_ofNat_add_one, chatLoop, hsc]
    rw [if_neg hne, if_pos ⟨h400, h600⟩, if_pos ⟨hlt, h429t⟩]
    rfl

/-- Witness for C2 (amended) at concrete inputs: a 500 response with the
usual `requests` error text fails at once with one request; a sustained
JSON-bodied 429 with `max_retries = 1` makes two requests and fails with
the rate-limit error; a 429 with a non-JSON body and `max_retries = 3`
fails at once with one request. -/
theorem c2_retry_scoping_witness :
    chat_with_images ((3 : Nat) : Int)
        (fun _ => AttemptOutcome.response 500 true none
          "500 Server Error: Internal Server Error for url: https://openrouter.ai/api/v1/chat/completions".data
          []) =
      (ChatResult.requestFailed
        "500 Server Error: Internal Server Error for url: https://openrouter.ai/api/v1/chat/completions".data,
        [Ev.rlWait, Ev.httpPost]) ∧
    ((chat_with_images ((1 : Nat) : Int)
        (fun _ => AttemptOutcome.response 429 true none [] [])).1 =
      ChatResult.rateLimitExceeded ((1 : Nat) : Int) ∧
    ((chat_with_images ((1 : Nat) : Int)
        (fun _ => AttemptOutcome.response 429 true none [] [])).2).count Ev.httpPost = 1 + 1) ∧
    chat_with_images ((3 : Nat) : Int)
        (fun _ => AttemptOutcome.response 429 false none []
          "Expecting value: line 1 column 1 (char 0)".data) =
      (ChatResult.requestFailed "Expecting value: line 1 column 1 (char 0)".data,
        [Ev.rlWait, Ev.httpPost]) :=
  ⟨(c2_retry_scoping 3 _).1 500 true none _ [] rfl (by decide) (by decide) (by decide)
      (by decide),
    (c2_retry_scoping 1 _).2.1 (fun a _ => ⟨none, [], [], rfl⟩),
    (c2_retry_scoping 3 _).2.2.2.1 none []
      "Expecting value: line 1 column 1 (char 0)".data rfl (by decide) (by decide)⟩

/-! ### Claim C4: retries do not re-enter rate limiting -/

/-- Counterexample to C4 as stated.  The claim asserts that every 429
retry re-invokes the rate limiter before the next request, so an
execution with `k` retries performs `k + 1` rate-limiter waits.  But the
source calls `self._wait_for_rate_limit()` once, before the retry loop
(line 79), and the loop's `continue` re-enters at `requests.post`, not at
the rate limiter.  With `max_retries = 1` and a sustained 429 the trace
shows one retry (two posts, one backoff sleep) yet a single rate-limiter
wait — the claim requires two. -/
theorem c4_counterexample :
    chat_with_images 1 (fun _ => AttemptOutcome.response 429 true none [] []) =
      (ChatResult.rateLimitExceeded 1,
        [Ev.rlWait, Ev.httpPost, Ev.backoffSleep, Ev.httpPost]) := by decide

/-- C4 (amended).  The rate-limiter wait is performed exactly once per
`chat_with_images` call — before the first HTTP request — regardless of
`max_retries` and of how many 429 retries occur; retries sleep the
backoff delay without re-invoking the rate limiter. -/
theorem c4_rate_limit_once (maxRetries : Int) (script : Nat → AttemptOutcome) :
    ((chat_with_images maxRetries script).2).count Ev.rlWait = 1 := by
  simp only [chat_with_images]
  rw [List.count_cons_self, chatLoop_count_rlWait]

/-! ### Claim C3: rate-limiter spacing -/

/-- Counterexample to C3 as stated.  The claim says the first call after
client construction blocks until at least `request_delay` seconds have
elapsed since construction.  But `__init__` sets
`self.last_request_time = 0` (the epoch), not the construction time: for
a client constructed at clock value 100 with `request_delay = 1`, the
first call at clock 100 returns immediately at 100, before
`construction + request_delay = 101`. -/
theorem c3_counterexample :
    (wait_for_rate_limit 1 initClientState 100).1 < 100 + 1 := by
  norm_num [wait_for_rate_limit, initClientState]

/-- C3 (amended).  For two consecutive calls on the same client, the
second call returns at least `request_delay` after the instant the first
returned (the second call starting no earlier than the first returned);
the stored `last_request_time` is always the post-wait return instant,
not the entry instant.  However the first call after construction does
not block relative to the construction time: `last_request_time` starts
at 0, so whenever the clock at the first call is at least
`request_delay`, the first call returns immediately. -/
theorem c3_rate_limiter_spacing (d : ℚ) (s : RateLimiterState) (t₁ t₂ : ℚ)
    (h : (wait_for_rate_limit d s t₁).1 ≤ t₂) :
    (wait_for_rate_limit d s t₁).1 + d ≤
        (wait_for_rate_limit d (wait_for_rate_limit d s t₁).2 t₂).1 ∧
    (∀ (s' : RateLimiterState) (now : ℚ),
      (wait_for_rate_limit d s' now).2.last_request_time =
        (wait_for_rate_limit d s' now).1) ∧
    (∀ now : ℚ, d ≤ now → (wait_for_rate_limit d initClientState now).1 = now) := by
  have hstate : ∀ (s' : RateLimiterState) (now : ℚ),
      (wait_for_rate_limit d s' now).2.last_request_time =
        (wait_for_rate_limit d s' now).1 := by
    intro s' now
    simp only [wait_for_rate_limit]
    split <;> rfl
  have key : ∀ (u : ℚ) (s' : RateLimiterState), s'.last_request_time = u → u ≤ t₂ →
      u + d ≤ (wait_for_rate_limit d s' t₂).1 := by
    intro u s' hu hle
    simp only [wait_for_rate_limit, hu]
    split
    · rename_i hlt
      dsimp only
      linarith
    · rename_i hge
      dsimp only
      linarith
  refine ⟨?_, hstate, ?_⟩
  · exact key _ _ (hstate s t₁) h
  · intro now hnow
    simp only [wait_for_rate_limit, initClientState]
    rw [if_neg (by simp only [sub_zero]; linarith)]

/-- Witness for C3 (amended) at concrete inputs: delay 1, first call at
clock 5, second call at clock 5.2 (after the first returned at 5). -/
theorem c3_rate_limiter_spacing_witness :
    (wait_for_rate_limit 1 ⟨0⟩ 5).1 + 1 ≤
        (wait_for_rate_limit 1 (wait_for_rate_limit 1 ⟨0⟩ 5).2 (26 / 5)).1 ∧
    (∀ (s' : RateLimiterState) (now : ℚ),
      (wait_for_rate_limit 1 s' now).2.last_request_time =
        (wait_for_rate_limit 1 s' now).1) ∧
    (∀ now : ℚ, (1 : ℚ) ≤ now → (wait_for_rate_limit 1 initClientState now).1 = now) :=
  c3_rate_limiter_spacing 1 ⟨0⟩ 5 (26 / 5) (by norm_num [wait_for_rate_limit])

/-! ### Claim C8: backoff monotonicity -/

/-- C8.  The retry delay is `backoff_factor ^ attempt` plus the sampled
jitter from `[0.1, 0.5)`, hence strictly greater than
`backoff_factor ^ attempt` for every possible jitter; and with
`backoff_factor > 1` the deterministic part is strictly increasing in the
attempt index. -/
theorem c8_backoff_monotonicity (f j : ℚ) (a b : Nat)
    (hj₁ : 1 / 10 ≤ j) (hj₂ : j < 1 / 2) :
    f ^ a < backoff_delay f a j ∧ (1 < f → a < b → f ^ a < f ^ b) := by
  constructor
  · show f ^ a < f ^ a + j
    linarith
  · intro hf hab
    exact pow_lt_pow_right₀ hf hab

/-- Witness for C8 at concrete inputs: factor 2, jitter 1/5, attempts 0
and 1. -/
theorem c8_backoff_monotonicity_witness :
    (2 : ℚ) ^ 0 < backoff_delay 2 0 (1 / 5) ∧
      ((1 : ℚ) < 2 → 0 < 1 → (2 : ℚ) ^ 0 < 2 ^ 1) :=
  c8_backoff_monotonicity 2 (1 / 5) 0 1 (by norm_num) (by norm_num)

/-! ### Claim C10: base64 round trip -/

theorem b64v_b64c : ∀ n, n < 64 → b64v (b64c n) = n := by decide

theorem b64c_ne_pad : ∀ n, n < 64 → b64c n ≠ '=' := by decide

theorem getD_map_of_lt {α β : Type} (f : α → β) (dα : α) (dβ : β) :
    ∀ (l : List α) (i : Nat), i < l.length → (l.map f).getD i dβ = f (l.getD i dα) := by
  intro l
  induction l with
  | nil => intro i h; simp at h
  | cons x t ih =>
    intro i h
    cases i with
    | zero => simp
    | succ j =>
      simp only [List.map_cons, List.getD_cons_succ]
      exact ih j (by simpa using h)

theorem base64Decode_encode :
    ∀ l : List Nat, (∀ b ∈ l, b < 256) → base64Decode (base64Encode l) = l := by
  have main : ∀ (n : Nat) (l : List Nat), l.length ≤ n → (∀ b ∈ l, b < 256) →
      base64Decode (base64Encode l) = l := by
    intro n
    induction n with
    | zero =>
      intro l hl _
      have : l = [] := List.eq_nil_of_length_eq_zero (by omega)
      subst this
      rfl
    | succ n ih =>
      intro l hl hb
      rcases l with _ | ⟨a, _ | ⟨b, _ | ⟨c, rest⟩⟩⟩
      · rfl
      · have ha : a < 256 := hb a (by simp)
        show base64Decode [b64c (a / 4), b64c (a % 4 * 16), '=', '='] = [a]
        rw [base64Decode, if_pos rfl, b64v_b64c _ (by omega), b64v_b64c _ (by omega)]
        simp only [List.cons.injEq, and_true]
        omega
      · have ha : a < 256 := hb a (by simp)
        have hbb : b < 256 := hb b (by simp)
        show base64Decode
            [b64c (a / 4), b64c (a % 4 * 16 + b / 16), b64c (b % 16 * 4), '='] = [a, b]
        rw [base64Decode, if_neg (b64c_ne_pad _ (by omega)), if_pos rfl,
          b64v_b64c _ (by omega), b64v_b64c _ (by omega), b64v_b64c _ (by omega)]
        simp only [List.cons.injEq, and_true]
        exact ⟨by omega, by omega⟩
      · have ha : a < 256 := hb a (by simp)
        have hbb : b < 256 := hb b (by simp)
        have hcc : c < 256 := hb c (by simp)
        show base64Decode
            ([b64c (a / 4), b64c (a % 4 * 16 + b / 16), b64c (b % 16 * 4 + c / 64),
              b64c (c % 64)] ++ base64Encode rest) = a :: b :: c :: rest
        simp only [List.cons_append, List.nil_append]
        rw [base64Decode, if_neg (b64c_ne_pad _ (by omega)),
          if_neg (b64c_ne_pad _ (by omega)),
          b64v_b64c _ (by omega), b64v_b64c _ (by omega), b64v_b64c _ (by omega),
          b64v_b64c _ (by omega),
          ih rest (by simp at hl; omega) (fun x hx => hb x (by simp [hx]))]
        simp only [List.cons_append, List.nil_append, List.cons.injEq]
        exact ⟨by omega, by omega, by omega, by trivial⟩
  intro l hb
  exact main l.length l le_rfl hb

/-- C10.  `encode_images_to_base64` maps each byte buffer to its RFC 4648
base64 rendering: the output list has the same length, its `i`-th element
is the encoding of the `i`-th input buffer (order preserved), and
decoding the `i`-th output recovers exactly the `i`-th input bytes. -/
theorem c10_base64_roundtrip (image_bytes_list : List (List Nat))
    (h : ∀ img ∈ image_bytes_list, ∀ b ∈ img, b < 256) :
    (encode_images_to_base64 image_bytes_list).length = image_bytes_list.length ∧
    ∀ i, i < image_bytes_list.length →
      (encode_images_to_base64 image_bytes_list).getD i [] =
          base64Encode (image_bytes_list.getD i []) ∧
      base64Decode ((encode_images_to_base64 image_bytes_list).getD i []) =
          image_bytes_list.getD i [] := by
  constructor
  · simp [encode_images_to_base64]
  · intro i hi
    have hmap : (encode_images_to_base64 image_bytes_list).getD i [] =
        base64Encode (image_bytes_list.getD i []) :=
      getD_map_of_lt base64Encode [] [] image_bytes_list i hi
    refine ⟨hmap, ?_⟩
    rw [hmap]
    have hmem : image_bytes_list.getD i [] ∈ image_bytes_list := by
      rw [List.getD_eq_getElem image_bytes_list [] hi]
      exact List.getElem_mem hi
    exact base64Decode_encode _ (h _ hmem)

/-- Witness for C10 at concrete inputs: two buffers, one and three bytes. -/
theorem c10_base64_roundtrip_witness :
    (encode_images_to_base64 [[0], [255, 1, 2]]).length = ([[0], [255, 1, 2]] : List (List Nat)).length ∧
    ∀ i, i < ([[0], [255, 1, 2]] : List (List Nat)).length →
      (encode_images_to_base64 [[0], [255, 1, 2]]).getD i [] =
          base64Encode (([[0], [255, 1, 2]] : List (List Nat)).getD i []) ∧
      base64Decode ((encode_images_to_base64 [[0], [255, 1, 2]]).getD i []) =
          ([[0], [255, 1, 2]] : List (List Nat)).getD i [] :=
  c10_base64_roundtrip [[0], [255, 1, 2]] (by decide)

end Pdf2MdProof
